import Mathlib

/-!
Verification of the streaming-completion pipeline of the `halp` CLI.

The development shallowly embeds the Rust sources:
* `src/providers/streaming.rs` — `SseProcessor` (buffered SSE frame
  splitting, size cap, output forwarding);
* `src/providers/anthropic.rs` / `src/providers/openai.rs` — the inline
  SSE drain loops of `stream_completion` together with the serde-style
  payload decoding each backend performs;
* `src/output.rs` — `parse_response` and the `StderrStreamer` sink.

Strings are modelled as `List Char` (`Str`); raw transport bytes as
`List Nat`.  Lossy UTF-8 decoding (`String::from_utf8_lossy`) is embedded
byte by byte with the standard maximal-subpart replacement policy.
-/

set_option maxHeartbeats 1000000
set_option maxRecDepth 10000

/-- Characters of a Rust `String`/`&str`. -/
abbrev Str := List Char

/-- `buffer.find("\n\n")`: index of the first SSE frame delimiter. -/
def findDelim : Str → Option Nat
  | c1 :: c2 :: rest =>
      if c1 = '\n' ∧ c2 = '\n' then some 0
      else (findDelim (c2 :: rest)).map (fun n => n + 1)
  | _ => none

/-- Split on `'\n'`, keeping every segment (helper for `rustLines`). -/
def splitNl : Str → List Str
  | [] => [[]]
  | c :: rest =>
      if c = '\n' then [] :: splitNl rest
      else
        match splitNl rest with
        | [] => [[c]]
        | l :: ls => (c :: l) :: ls

/-- Remove one trailing `'\r'` (Rust `str::lines` semantics). -/
def dropCr (l : Str) : Str :=
  if l.getLast? = some '\r' then l.dropLast else l

/-- Rust `str::lines()`: split on `'\n'`, no trailing empty segment when the
string ends with a newline, each line stripped of one trailing `'\r'`. -/
def rustLines (s : Str) : List Str :=
  if s = [] then []
  else (if s.getLast? = some '\n' then (splitNl s).dropLast else splitNl s).map dropCr

/-- The `"data: "` payload marker. -/
def dataMarker : Str := "data: ".data

/-- The `"[DONE]"` stream-end sentinel. -/
def doneStr : Str := "[DONE]".data

/-- `line.strip_prefix("data: ")`. -/
def dropData (l : Str) : Option Str :=
  if dataMarker.isPrefixOf l then some (l.drop dataMarker.length) else none

/-- U+FFFD, the replacement character used by lossy UTF-8 decoding. -/
def replChar : Char := Char.ofNat 0xFFFD

/-- Lossy UTF-8 decoder state: `some (rem, acc, lo, hi)` means `rem` more
continuation bytes are expected, `acc` holds the partial code point, and the
next byte must lie in `[lo, hi]`. -/
abbrev DecSt := Option (Nat × Nat × Nat × Nat)

/-- Classify a byte as the start of a UTF-8 sequence, with the constrained
ranges that rule out overlongs, surrogates and values above U+10FFFF. -/
def classifyLead (b : Nat) : List Char × DecSt :=
  if b < 0x80 then ([Char.ofNat b], none)
  else if b < 0xC2 then ([replChar], none)
  else if b ≤ 0xDF then ([], some (1, b - 0xC0, 0x80, 0xBF))
  else if b = 0xE0 then ([], some (2, 0, 0xA0, 0xBF))
  else if b = 0xED then ([], some (2, 0xD, 0x80, 0x9F))
  else if b ≤ 0xEF then ([], some (2, b - 0xE0, 0x80, 0xBF))
  else if b = 0xF0 then ([], some (3, 0, 0x90, 0xBF))
  else if b ≤ 0xF3 then ([], some (3, b - 0xF0, 0x80, 0xBF))
  else if b = 0xF4 then ([], some (3, 4, 0x80, 0x8F))
  else ([replChar], none)

/-- Feed one byte to the decoder; on an invalid continuation byte the
maximal subpart consumed so far becomes one replacement character and the
byte is reprocessed as a fresh lead. -/
def stepByte (st : DecSt) (b : Nat) : List Char × DecSt :=
  match st with
  | none => classifyLead b
  | some (rem, acc, lo, hi) =>
      if lo ≤ b ∧ b ≤ hi then
        let acc2 := acc * 64 + (b - 0x80)
        if rem = 1 then ([Char.ofNat acc2], none)
        else ([], some (rem - 1, acc2, 0x80, 0xBF))
      else
        let p := classifyLead b
        (replChar :: p.1, p.2)

/-- Run the decoder over a byte list; a pending incomplete sequence at the
end becomes one replacement character. -/
def lossyRun : DecSt → List Nat → List Char
  | st, [] =>
      match st with
      | none => []
      | some _ => [replChar]
  | st, b :: rest => (stepByte st b).1 ++ lossyRun (stepByte st b).2 rest

/-- `String::from_utf8_lossy(chunk)`, as applied to each transport chunk. -/
def utf8Lossy (bs : List Nat) : Str := lossyRun none bs

/-- Fuel-indexed embedding of the `while let Some(event_end) =
buffer.find("\n\n")` drain loop shared by `SseProcessor::process_events` and
the providers' inline loops.  `handleFrame` receives the frame text without
the trailing delimiter; the delimiter is removed from the buffer. -/
def drainFuel {σ ε : Type} (handleFrame : Str → σ → Except ε σ) :
    Nat → Str → σ → Except ε (Str × σ)
  | 0, buf, st => .ok (buf, st)
  | fuel + 1, buf, st =>
      match findDelim buf with
      | none => .ok (buf, st)
      | some i =>
          match handleFrame (buf.take i) st with
          | .error e => .error e
          | .ok st2 => drainFuel handleFrame fuel (buf.drop (i + 2)) st2

/-- The drain loop with sufficient fuel (each iteration removes at least the
two delimiter characters, so `buf.length` iterations always suffice). -/
def drainAll {σ ε : Type} (handleFrame : Str → σ → Except ε σ) (buf : Str) (st : σ) :
    Except ε (Str × σ) :=
  drainFuel handleFrame buf.length buf st

/-- The `for line in event_data.lines()` body: run a per-line step over a
frame's lines, stopping at the first error. -/
def runLines {σ ε : Type} (step : Str → σ → Except ε σ) : List Str → σ → Except ε σ
  | [], st => .ok st
  | l :: ls, st =>
      match step l st with
      | .error e => .error e
      | .ok st2 => runLines step ls st2

/-- The outer `while let Some(chunk) = stream.next()` loop: each chunk is
lossily decoded, appended to the carried-over buffer, and every complete
frame is drained before the next chunk arrives. -/
def feedChunks {σ ε : Type} (handleFrame : Str → σ → Except ε σ) :
    List (List Nat) → Str → σ → Except ε (Str × σ)
  | [], buf, st => .ok (buf, st)
  | c :: cs, buf, st =>
      match drainAll handleFrame (buf ++ utf8Lossy c) st with
      | .error e => .error e
      | .ok p => feedChunks handleFrame cs p.1 p.2

theorem findDelim_bound : ∀ (s : Str) (i : Nat), findDelim s = some i → i + 2 ≤ s.length := by
  intro s
  induction s with
  | nil => intro i h; simp [findDelim] at h
  | cons c1 tl ih =>
    intro i h
    cases tl with
    | nil => simp [findDelim] at h
    | cons c2 rest =>
      rw [findDelim] at h
      by_cases hc : c1 = '\n' ∧ c2 = '\n'
      · rw [if_pos hc] at h
        cases h
        simp
      · rw [if_neg hc] at h
        rw [Option.map_eq_some'] at h
        obtain ⟨j, hj, hij⟩ := h
        have := ih j hj
        simp at this ⊢
        omega

theorem findDelim_append (v : Str) :
    ∀ (s : Str) (i : Nat), findDelim s = some i → findDelim (s ++ v) = some i := by
  intro s
  induction s with
  | nil => intro i h; simp [findDelim] at h
  | cons c1 tl ih =>
    intro i h
    cases tl with
    | nil => simp [findDelim] at h
    | cons c2 rest =>
      rw [findDelim] at h
      rw [List.cons_append, List.cons_append, findDelim]
      by_cases hc : c1 = '\n' ∧ c2 = '\n'
      · rw [if_pos hc] at h ⊢
        exact h
      · rw [if_neg hc] at h ⊢
        rw [Option.map_eq_some'] at h
        obtain ⟨j, hj, hij⟩ := h
        have h2 := ih j hj
        rw [List.cons_append] at h2
        rw [h2]
        simpa using hij

theorem findDelim_nil : findDelim [] = none := rfl

theorem drainAll_of_none {σ ε : Type} (h : Str → σ → Except ε σ) {buf : Str}
    (hfd : findDelim buf = none) (st : σ) :
    drainAll h buf st = .ok (buf, st) := by
  unfold drainAll
  cases hl : buf.length with
  | zero => rfl
  | succ n =>
    rw [drainFuel, hfd]

theorem drainFuel_irrel {σ ε : Type} (h : Str → σ → Except ε σ) :
    ∀ (f1 f2 : Nat) (buf : Str) (st : σ), buf.length ≤ f1 → buf.length ≤ f2 →
      drainFuel h f1 buf st = drainFuel h f2 buf st := by
  intro f1
  induction f1 with
  | zero =>
    intro f2 buf st h1 _
    have hb : buf = [] := List.eq_nil_of_length_eq_zero (Nat.le_zero.mp h1)
    subst hb
    cases f2 with
    | zero => rfl
    | succ m => rw [drainFuel, drainFuel, findDelim_nil]
  | succ n ih =>
    intro f2 buf st h1 h2
    cases f2 with
    | zero =>
      have hb : buf = [] := List.eq_nil_of_length_eq_zero (Nat.le_zero.mp h2)
      subst hb
      rw [drainFuel, drainFuel, findDelim_nil]
    | succ m =>
      rw [drainFuel, drainFuel]
      cases hfd : findDelim buf with
      | none => rfl
      | some i =>
        have hb := findDelim_bound buf i hfd
        cases hh : h (buf.take i) st with
        | error e => simp only [hh]
        | ok st2 =>
          simp only [hh]
          have hd : (buf.drop (i + 2)).length = buf.length - (i + 2) := by
            simp
          exact ih m (buf.drop (i + 2)) st2 (by omega) (by omega)

theorem drainAll_of_some {σ ε : Type} (h : Str → σ → Except ε σ) {buf : Str} {i : Nat}
    (hfd : findDelim buf = some i) (st : σ) :
    drainAll h buf st =
      match h (buf.take i) st with
      | .error e => .error e
      | .ok st2 => drainAll h (buf.drop (i + 2)) st2 := by
  have hb := findDelim_bound buf i hfd
  unfold drainAll
  obtain ⟨n, hn⟩ : ∃ n, buf.length = n + 1 := ⟨buf.length - 1, by omega⟩
  rw [hn, drainFuel, hfd]
  cases hh : h (buf.take i) st with
  | error e => simp only [hh]
  | ok st2 =>
    simp only [hh]
    have hd : (buf.drop (i + 2)).length = buf.length - (i + 2) := by simp
    exact drainFuel_irrel h n (buf.drop (i + 2)).length (buf.drop (i + 2)) st2
      (by omega) (by omega)

theorem drainAll_append {σ ε : Type} (h : Str → σ → Except ε σ) :
    ∀ (n : Nat) (x : Str), x.length ≤ n → ∀ (y : Str) (st : σ),
      drainAll h (x ++ y) st =
        match drainAll h x st with
        | .error e => .error e
        | .ok p => drainAll h (p.1 ++ y) p.2 := by
  intro n
  induction n with
  | zero =>
    intro x hx y st
    have hb : x = [] := List.eq_nil_of_length_eq_zero (Nat.le_zero.mp hx)
    subst hb
    rw [drainAll_of_none h findDelim_nil st]
  | succ n ih =>
    intro x hx y st
    cases hfd : findDelim x with
    | none =>
      rw [drainAll_of_none h hfd st]
    | some i =>
      have hb := findDelim_bound x i hfd
      have hfd2 : findDelim (x ++ y) = some i := findDelim_append y x i hfd
      rw [drainAll_of_some h hfd2 st, drainAll_of_some h hfd st]
      have htake : (x ++ y).take i = x.take i :=
        List.take_append_of_le_length (by omega)
      rw [htake]
      cases hh : h (x.take i) st with
      | error e => simp only [hh]
      | ok st2 =>
        simp only [hh]
        have hdrop : (x ++ y).drop (i + 2) = x.drop (i + 2) ++ y :=
          List.drop_append_of_le_length (by omega)
        rw [hdrop]
        exact ih (x.drop (i + 2)) (by simp; omega) y st2

theorem drainFuel_no_delim {σ ε : Type} (h : Str → σ → Except ε σ) :
    ∀ (f : Nat) (buf : Str) (st : σ) (buf2 : Str) (st2 : σ), buf.length ≤ f →
      drainFuel h f buf st = .ok (buf2, st2) → findDelim buf2 = none := by
  intro f
  induction f with
  | zero =>
    intro buf st buf2 st2 hl he
    have hb : buf = [] := List.eq_nil_of_length_eq_zero (Nat.le_zero.mp hl)
    subst hb
    rw [drainFuel] at he
    cases he
    exact findDelim_nil
  | succ n ih =>
    intro buf st buf2 st2 hl he
    rw [drainFuel] at he
    cases hfd : findDelim buf with
    | none =>
      simp only [hfd] at he
      cases he
      exact hfd
    | some i =>
      simp only [hfd] at he
      have hb := findDelim_bound buf i hfd
      cases hh : h (buf.take i) st with
      | error e =>
        simp only [hh] at he
        exact (Except.noConfusion he)
      | ok st3 =>
        simp only [hh] at he
        exact ih (buf.drop (i + 2)) st3 buf2 st2 (by simp; omega) he

theorem drainAll_no_delim {σ ε : Type} (h : Str → σ → Except ε σ) {buf : Str} {st : σ}
    {buf2 : Str} {st2 : σ} (he : drainAll h buf st = .ok (buf2, st2)) :
    findDelim buf2 = none :=
  drainFuel_no_delim h buf.length buf st buf2 st2 le_rfl he

theorem utf8Lossy_ascii_append :
    ∀ (a : List Nat), (∀ b ∈ a, b < 128) → ∀ (y : List Nat),
      utf8Lossy (a ++ y) = utf8Lossy a ++ utf8Lossy y := by
  intro a
  induction a with
  | nil =>
    intro _ y
    simp [utf8Lossy, lossyRun]
  | cons b tl ih =>
    intro ha y
    have hb : b < 128 := ha b (by simp)
    have hstep : stepByte none b = ([Char.ofNat b], none) := by
      simp only [stepByte, classifyLead]
      rw [if_pos hb]
    simp only [utf8Lossy, List.cons_append, lossyRun, hstep]
    have := ih (fun b hb => ha b (List.mem_cons_of_mem _ hb)) y
    simp only [utf8Lossy] at this
    simp [List.append_eq, this]

theorem feedChunks_flatten {σ ε : Type} (h : Str → σ → Except ε σ) :
    ∀ (chunks : List (List Nat)) (buf : Str) (st : σ),
      (∀ b ∈ chunks.flatten, b < 128) → findDelim buf = none →
      feedChunks h chunks buf st = drainAll h (buf ++ utf8Lossy chunks.flatten) st := by
  intro chunks
  induction chunks with
  | nil =>
    intro buf st _ hbuf
    rw [feedChunks]
    have : utf8Lossy ([] : List (List Nat)).flatten = [] := by
      simp [utf8Lossy, lossyRun]
    rw [this, List.append_nil, drainAll_of_none h hbuf st]
  | cons c cs ih =>
    intro buf st hascii hbuf
    have ha1 : ∀ b ∈ c, b < 128 := fun b hb => hascii b (by simp [hb])
    have ha2 : ∀ b ∈ cs.flatten, b < 128 := fun b hb => hascii b (by simp [hb])
    rw [List.flatten_cons, utf8Lossy_ascii_append c ha1 cs.flatten, ← List.append_assoc]
    rw [drainAll_append h (buf ++ utf8Lossy c).length (buf ++ utf8Lossy c) le_rfl
      (utf8Lossy cs.flatten) st]
    rw [feedChunks]
    cases hd : drainAll h (buf ++ utf8Lossy c) st with
    | error e => rfl
    | ok p =>
      simp only
      exact ih p.1 p.2 ha2 (drainAll_no_delim h hd)

/-- JSON values as produced by `serde_json`.  A number records its sign and
integral part; the `Bool` field is true when the literal was an integer
(no fraction, no exponent) — only such values deserialize into `usize`. -/
inductive Json where
  | null : Json
  | bool : Bool → Json
  | num : Bool → Nat → Bool → Json
  | str : Str → Json
  | arr : List Json → Json
  | obj : List (Str × Json) → Json

/-- JSON whitespace. -/
def isWsJson (c : Char) : Bool := c = ' ' ∨ c = '\t' ∨ c = '\n' ∨ c = '\r'

/-- Skip leading JSON whitespace. -/
def skipWs : Str → Str
  | [] => []
  | c :: rest => if isWsJson c then skipWs rest else c :: rest

/-- ASCII digit test. -/
def isDigit (c : Char) : Bool := '0' ≤ c ∧ c ≤ '9'

/-- Digit value. -/
def digitVal (c : Char) : Nat := c.toNat - '0'.toNat

/-- Hexadecimal digit value. -/
def hexVal (c : Char) : Option Nat :=
  if '0' ≤ c ∧ c ≤ '9' then some (c.toNat - '0'.toNat)
  else if 'a' ≤ c ∧ c ≤ 'f' then some (c.toNat - 'a'.toNat + 10)
  else if 'A' ≤ c ∧ c ≤ 'F' then some (c.toNat - 'A'.toNat + 10)
  else none

/-- Split a leading run of digits from the rest. -/
def takeDigits : Str → Str × Str
  | [] => ([], [])
  | c :: rest =>
      if isDigit c then
        match takeDigits rest with
        | (ds, r) => (c :: ds, r)
      else ([], c :: rest)

/-- Numeric value of a digit run. -/
def digitsVal (ds : Str) : Nat := ds.foldl (fun a c => a * 10 + digitVal c) 0

/-- Single-character string escapes. -/
def escChar (e : Char) : Option Char :=
  if e = '\"' then some '\"'
  else if e = '\\' then some '\\'
  else if e = '/' then some '/'
  else if e = 'b' then some (Char.ofNat 0x08)
  else if e = 'f' then some (Char.ofNat 0x0C)
  else if e = 'n' then some '\n'
  else if e = 'r' then some '\r'
  else if e = 't' then some '\t'
  else none

/-- Lex a JSON string body (the opening quote already consumed); returns the
decoded characters and the remaining input after the closing quote. -/
def parseJStr : Nat → Str → Except Str (Str × Str)
  | 0, _ => .error ("unexpected end of string".data)
  | fuel + 1, s =>
    match s with
    | [] => .error ("unexpected end of string".data)
    | c :: rest =>
      if c = '\"' then .ok ([], rest)
      else if c = '\\' then
        match rest with
        | [] => .error ("unexpected end of string".data)
        | e :: rest2 =>
          if e = 'u' then
            match rest2 with
            | h1 :: h2 :: h3 :: h4 :: rest3 =>
              match hexVal h1, hexVal h2, hexVal h3, hexVal h4 with
              | some v1, some v2, some v3, some v4 =>
                let code := ((v1 * 16 + v2) * 16 + v3) * 16 + v4
                if 0xD800 ≤ code ∧ code ≤ 0xDBFF then
                  match rest3 with
                  | b1 :: u2 :: h5 :: h6 :: h7 :: h8 :: rest4 =>
                    if b1 = '\\' ∧ u2 = 'u' then
                      match hexVal h5, hexVal h6, hexVal h7, hexVal h8 with
                      | some w1, some w2, some w3, some w4 =>
                        let lo := ((w1 * 16 + w2) * 16 + w3) * 16 + w4
                        if 0xDC00 ≤ lo ∧ lo ≤ 0xDFFF then
                          match parseJStr fuel rest4 with
                          | .error err => .error err
                          | .ok (t, r) =>
                              .ok (Char.ofNat
                                (0x10000 + (code - 0xD800) * 0x400 + (lo - 0xDC00)) :: t, r)
                        else .error ("unexpected end of hex escape".data)
                      | _, _, _, _ => .error ("invalid hex escape".data)
                    else .error ("unexpected end of hex escape".data)
                  | _ => .error ("unexpected end of hex escape".data)
                else if 0xDC00 ≤ code ∧ code ≤ 0xDFFF then .error ("lone leading surrogate".data)
                else
                  match parseJStr fuel rest3 with
                  | .error err => .error err
                  | .ok (t, r) => .ok (Char.ofNat code :: t, r)
              | _, _, _, _ => .error ("invalid hex escape".data)
            | _ => .error ("unexpected end of string".data)
          else
            match escChar e with
            | some ec =>
              match parseJStr fuel rest2 with
              | .error err => .error err
              | .ok (t, r) => .ok (ec :: t, r)
            | none => .error ("invalid escape".data)
      else if c.toNat < 0x20 then .error ("control character in string".data)
      else
        match parseJStr fuel rest with
        | .error err => .error err
        | .ok (t, r) => .ok (c :: t, r)

/-- Fraction part of a number literal, when present. -/
def parseFracPart (s : Str) : Except Str (Bool × Str) :=
  match s with
  | [] => .ok (false, [])
  | c :: rest =>
    if c = '.' then
      match rest with
      | [] => .error ("invalid number".data)
      | d :: _ => if isDigit d then .ok (true, (takeDigits rest).2) else .error ("invalid number".data)
    else .ok (false, s)

/-- Exponent part of a number literal, when present. -/
def parseExpPart (s : Str) : Except Str (Bool × Str) :=
  match s with
  | [] => .ok (false, [])
  | c :: rest =>
    if c = 'e' ∨ c = 'E' then
      let rest2 :=
        match rest with
        | [] => rest
        | d :: r2 => if d = '+' ∨ d = '-' then r2 else rest
      match rest2 with
      | [] => .error ("invalid number".data)
      | d :: _ => if isDigit d then .ok (true, (takeDigits rest2).2) else .error ("invalid number".data)
    else .ok (false, s)

/-- A JSON number literal (leading `-` and digit grammar as in serde_json;
the value of a fraction/exponent is not retained, only its presence). -/
def parseNum (s : Str) : Except Str (Json × Str) :=
  match s with
  | [] => .error ("invalid number".data)
  | c0 :: rest0 =>
    let neg := c0 = '-'
    let s1 := if neg then rest0 else c0 :: rest0
    match s1 with
    | [] => .error ("invalid number".data)
    | c :: rest =>
      if isDigit c then
        if c = '0' ∧ (match rest with | d :: _ => isDigit d | [] => false : Bool) then
          .error ("invalid number".data)
        else
          match takeDigits (c :: rest) with
          | (ds, s2) =>
            match parseFracPart s2 with
            | .error e => .error e
            | .ok (hasFrac, s3) =>
              match parseExpPart s3 with
              | .error e => .error e
              | .ok (hasExp, s4) =>
                .ok (.num neg (digitsVal ds) (¬ (hasFrac ∨ hasExp)), s4)
      else .error ("invalid number".data)

mutual

/-- Recursive-descent JSON value (fuel decreases on each nesting step). -/
def parseVal : Nat → Str → Except Str (Json × Str)
  | 0, _ => .error ("recursion limit exceeded".data)
  | fuel + 1, s =>
    match skipWs s with
    | [] => .error ("unexpected end of input".data)
    | c :: rest =>
      if c = '\"' then
        match parseJStr (rest.length + 1) rest with
        | .error e => .error e
        | .ok (t, r) => .ok (.str t, r)
      else if c = Char.ofNat 123 then
        match skipWs rest with
        | [] => .error ("unexpected end of input".data)
        | c2 :: rest2 =>
          if c2 = Char.ofNat 125 then .ok (.obj [], rest2)
          else
            match parseMembers fuel (c2 :: rest2) [] with
            | .error e => .error e
            | .ok (ms, r) => .ok (.obj ms, r)
      else if c = '[' then
        match skipWs rest with
        | [] => .error ("unexpected end of input".data)
        | c2 :: rest2 =>
          if c2 = ']' then .ok (.arr [], rest2)
          else
            match parseElems fuel (c2 :: rest2) [] with
            | .error e => .error e
            | .ok (vs, r) => .ok (.arr vs, r)
      else if c = 't' then
        if List.isPrefixOf "rue".data rest then .ok (.bool true, rest.drop 3)
        else .error ("expected ident".data)
      else if c = 'f' then
        if List.isPrefixOf "alse".data rest then .ok (.bool false, rest.drop 4)
        else .error ("expected ident".data)
      else if c = 'n' then
        if List.isPrefixOf "ull".data rest then .ok (.null, rest.drop 3)
        else .error ("expected ident".data)
      else if c = '-' ∨ isDigit c then parseNum (c :: rest)
      else .error ("expected value".data)

/-- Object members after the opening brace (first key expected at `s`). -/
def parseMembers : Nat → Str → List (Str × Json) →
    Except Str (List (Str × Json) × Str)
  | 0, _, _ => .error ("recursion limit exceeded".data)
  | fuel + 1, s, acc =>
    match s with
    | [] => .error ("unexpected end of input".data)
    | c :: rest =>
      if c = '\"' then
        match parseJStr (rest.length + 1) rest with
        | .error e => .error e
        | .ok (k, r1) =>
          match skipWs r1 with
          | [] => .error ("unexpected end of input".data)
          | c2 :: r2 =>
            if c2 = ':' then
              match parseVal fuel r2 with
              | .error e => .error e
              | .ok (v, r3) =>
                match skipWs r3 with
                | [] => .error ("unexpected end of input".data)
                | c3 :: r4 =>
                  if c3 = ',' then parseMembers fuel (skipWs r4) (acc ++ [(k, v)])
                  else if c3 = Char.ofNat 125 then .ok (acc ++ [(k, v)], r4)
                  else .error ("expected comma or closing brace".data)
            else .error ("expected colon".data)
      else .error ("key must be a string".data)

/-- Array elements after the opening bracket (first value expected at `s`). -/
def parseElems : Nat → Str → List Json → Except Str (List Json × Str)
  | 0, _, _ => .error ("recursion limit exceeded".data)
  | fuel + 1, s, acc =>
    match parseVal fuel s with
    | .error e => .error e
    | .ok (v, r1) =>
      match skipWs r1 with
      | [] => .error ("unexpected end of input".data)
      | c :: r2 =>
        if c = ',' then parseElems fuel r2 (acc ++ [v])
        else if c = ']' then .ok (acc ++ [v], r2)
        else .error ("expected comma or closing bracket".data)

end

/-- `serde_json::from_str`, parsing stage: a complete value followed by
nothing but whitespace. -/
def jsonParse (s : Str) : Except Str Json :=
  match parseVal (s.length + 1) s with
  | .error e => .error e
  | .ok (v, r) => if skipWs r = [] then .ok v else .error ("trailing characters".data)

/-- Object field lookup. -/
def objFind : List (Str × Json) → Str → Option Json
  | [], _ => none
  | (k, v) :: rest, key => if k = key then some v else objFind rest key

/-- Deserialize a `String` field. -/
def asString : Json → Except Str Str
  | .str s => .ok s
  | _ => .error ("invalid type: expected string".data)

/-- Deserialize a `usize` field: a non-negative integer literal. -/
def asUsize : Json → Except Str Nat
  | .num neg n intLike =>
      if intLike ∧ ¬ neg then .ok n else .error ("invalid type: expected usize".data)
  | _ => .error ("invalid type: expected usize".data)

/-- Deserialize an `Option<String>` field (missing or `null` is `None`). -/
def asOptString : Option Json → Except Str (Option Str)
  | none => .ok none
  | some .null => .ok none
  | some (.str s) => .ok (some s)
  | some _ => .error ("invalid type: expected string or null".data)

/-- `Delta` of `anthropic.rs`: internally tagged by `"type"`. -/
inductive ADelta where
  | textDelta : Str → ADelta
  | inputJsonDelta : Str → ADelta

/-- `StreamEvent` of `anthropic.rs`: internally tagged by `"type"`. -/
inductive AEvent where
  | messageStart : Json → AEvent
  | contentBlockStart : Nat → Str → Option Str → AEvent
  | contentBlockDelta : Nat → ADelta → AEvent
  | contentBlockStop : Nat → AEvent
  | messageDelta : Json → AEvent
  | messageStop : AEvent
  | ping : AEvent
  | errorEv : Str → AEvent

/-- serde deserialization of `Delta` (tag `"text_delta"` or
`"input_json_delta"`; anything else is a hard decode error). -/
def decodeADelta (j : Json) : Except Str ADelta :=
  match j with
  | .obj fields =>
    match objFind fields ("type".data) with
    | some (.str tag) =>
      if tag = "text_delta".data then
        match objFind fields ("text".data) with
        | some tv => (asString tv).map ADelta.textDelta
        | none => .error ("missing field text".data)
      else if tag = "input_json_delta".data then
        match objFind fields ("partial_json".data) with
        | some pv => (asString pv).map ADelta.inputJsonDelta
        | none => .error ("missing field partial_json".data)
      else .error ("unknown variant".data)
    | _ => .error ("missing field type".data)
  | _ => .error ("invalid type: expected object".data)

/-- serde deserialization of `StreamEvent` (internally tagged union of the
eight event kinds; unknown tags and missing required fields are errors,
unknown extra fields are ignored). -/
def decodeAEvent (j : Json) : Except Str AEvent :=
  match j with
  | .obj fields =>
    match objFind fields ("type".data) with
    | some (.str tag) =>
      if tag = "message_start".data then
        match objFind fields ("message".data) with
        | some m => .ok (.messageStart m)
        | none => .error ("missing field message".data)
      else if tag = "content_block_start".data then
        match objFind fields ("index".data), objFind fields ("content_block".data) with
        | some iv, some cb =>
          (match asUsize iv with
          | .error e => .error e
          | .ok i =>
            match cb with
            | .obj cbf =>
              match objFind cbf ("type".data) with
              | some btv =>
                (match asString btv with
                | .error e => .error e
                | .ok bt =>
                  match asOptString (objFind cbf ("text".data)) with
                  | .error e => .error e
                  | .ok txt => .ok (.contentBlockStart i bt txt))
              | none => .error ("missing field type".data)
            | _ => .error ("invalid type: expected object".data))
        | _, _ => .error ("missing field".data)
      else if tag = "content_block_delta".data then
        match objFind fields ("index".data), objFind fields ("delta".data) with
        | some iv, some dv =>
          (match asUsize iv with
          | .error e => .error e
          | .ok i =>
            match decodeADelta dv with
            | .error e => .error e
            | .ok d => .ok (.contentBlockDelta i d))
        | _, _ => .error ("missing field".data)
      else if tag = "content_block_stop".data then
        match objFind fields ("index".data) with
        | some iv => (asUsize iv).map AEvent.contentBlockStop
        | none => .error ("missing field index".data)
      else if tag = "message_delta".data then
        match objFind fields ("delta".data) with
        | some d => .ok (.messageDelta d)
        | none => .error ("missing field delta".data)
      else if tag = "message_stop".data then .ok .messageStop
      else if tag = "ping".data then .ok .ping
      else if tag = "error".data then
        match objFind fields ("error".data) with
        | some (.obj ef) =>
          (match objFind ef ("message".data) with
          | some mv => (asString mv).map AEvent.errorEv
          | none => .error ("missing field message".data))
        | some _ => .error ("invalid type: expected object".data)
        | none => .error ("missing field error".data)
      else .error ("unknown variant".data)
    | _ => .error ("missing field type".data)
  | _ => .error ("invalid type: expected object".data)

/-- `serde_json::from_str::<StreamEvent>` of `anthropic.rs`. -/
def anthropicFromStr (d : Str) : Except Str AEvent :=
  match jsonParse d with
  | .error e => .error e
  | .ok j => decodeAEvent j

/-- `Choice` of `openai.rs` after deserialization: the choice's
`delta.content`. -/
structure OChoice where
  content : Option Str

/-- serde deserialization of one `Choice`: field `delta` is required and
must be an object; `content` inside it is an `Option<String>`. -/
def decodeOChoice (j : Json) : Except Str OChoice :=
  match j with
  | .obj fields =>
    match objFind fields ("delta".data) with
    | some (.obj df) =>
      (match asOptString (objFind df ("content".data)) with
      | .error e => .error e
      | .ok c => .ok ⟨c⟩)
    | some _ => .error ("invalid type: expected object".data)
    | none => .error ("missing field delta".data)
  | _ => .error ("invalid type: expected object".data)

/-- Deserialize each element of a JSON array, failing on the first error. -/
def decodeJList (f : Json → Except Str OChoice) : List Json → Except Str (List OChoice)
  | [] => .ok []
  | j :: js =>
      match f j with
      | .error e => .error e
      | .ok a =>
        match decodeJList f js with
        | .error e => .error e
        | .ok rest => .ok (a :: rest)

/-- `serde_json::from_str::<StreamChunk>` of `openai.rs`: field `choices`
is required and must be an array of choices. -/
def openaiFromStr (d : Str) : Except Str (List OChoice) :=
  match jsonParse d with
  | .error e => .error e
  | .ok j =>
    match j with
    | .obj fields =>
      match objFind fields ("choices".data) with
      | some (.arr js) => decodeJList decodeOChoice js
      | some _ => .error ("invalid type: expected array".data)
      | none => .error ("missing field choices".data)
    | _ => .error ("invalid type: expected object".data)

/-- State of one provider `stream_completion` call: the accumulated
`full_response` and the fragments already written to the output sink. -/
structure PState where
  acc : Str
  ws : List Str

/-- A provider early-return carries the error message together with the
state at that moment: fragments already written to the sink remain
observable even though the call's return value is the error. -/
abbrev PErr := Str × PState

/-- `format!("API error: \x7b\x7d", error.message)`. -/
def apiErrMsg (m : Str) : Str := "API error: ".data ++ m

/-- Body of `for line in event_data.lines()` in
`anthropic.rs::stream_completion`: strip `"data: "`, skip `"[DONE]"`,
silently skip payloads `serde_json` cannot parse into a `StreamEvent`
(`if let Ok(event) = ...`), append and forward text deltas, return early on
an `error` event. -/
def anthropicLine (line : Str) (st : PState) : Except PErr PState :=
  match dropData line with
  | none => .ok st
  | some d =>
    if d = doneStr then .ok st
    else
      match anthropicFromStr d with
      | .error _ => .ok st
      | .ok ev =>
        match ev with
        | .contentBlockDelta _ (.textDelta t) => .ok ⟨st.acc ++ t, st.ws ++ [t]⟩
        | .errorEv m => .error (apiErrMsg m, st)
        | _ => .ok st

/-- One drained frame of the anthropic loop (`event_data` excludes the
delimiter there). -/
def anthropicFrame (frame : Str) (st : PState) : Except PErr PState :=
  runLines anthropicLine (rustLines frame) st

/-- The post-HTTP streaming loop of `anthropic.rs::stream_completion` over
the transport's byte chunks, starting from empty buffer and response. -/
def anthropicFeed (chunks : List (List Nat)) : Except PErr (Str × PState) :=
  feedChunks anthropicFrame chunks [] ⟨[], []⟩

/-- The value `anthropic.rs::stream_completion` returns once the transport
stream ends: `Ok(full_response)` (the undrained buffer tail is dropped). -/
def anthropicRun (chunks : List (List Nat)) : Except PErr Str :=
  match anthropicFeed chunks with
  | .error e => .error e
  | .ok p => .ok p.2.acc

/-- Body of `for line in event_data.lines()` in
`openai.rs::stream_completion`: strip `"data: "`, skip `"[DONE]"`, silently
skip payloads that do not parse into a `StreamChunk`, append and forward
the first choice's `delta.content` when present. -/
def openaiLine (line : Str) (st : PState) : Except PErr PState :=
  match dropData line with
  | none => .ok st
  | some d =>
    if d = doneStr then .ok st
    else
      match openaiFromStr d with
      | .error _ => .ok st
      | .ok choices =>
        match choices with
        | [] => .ok st
        | ch :: _ =>
          match ch.content with
          | none => .ok st
          | some t => .ok ⟨st.acc ++ t, st.ws ++ [t]⟩

/-- One drained frame of the openai loop. -/
def openaiFrame (frame : Str) (st : PState) : Except PErr PState :=
  runLines openaiLine (rustLines frame) st

/-- The post-HTTP streaming loop of `openai.rs::stream_completion`. -/
def openaiFeed (chunks : List (List Nat)) : Except PErr (Str × PState) :=
  feedChunks openaiFrame chunks [] ⟨[], []⟩

/-- The value `openai.rs::stream_completion` returns at stream end. -/
def openaiRun (chunks : List (List Nat)) : Except PErr Str :=
  match openaiFeed chunks with
  | .error e => .error e
  | .ok p => .ok p.2.acc

/-- `MAX_RESPONSE_SIZE` of `streaming.rs` (1 MiB). -/
def MAX_RESPONSE_SIZE : Nat := 1048576

/-- The size-limit error message of `process_events`. -/
def sizeErrMsg (max : Nat) : Str :=
  "Response too large (>".data ++ (Nat.repr max).data ++ " bytes)".data

/-- Rust `String::len`: the UTF-8 byte length of a string. -/
def utf8Len (s : Str) : Nat := (s.map (fun c => c.utf8Size)).sum

/-- Byte-indexed slicing `&s[n..]` at a char boundary: drop whole
characters until `n` bytes are consumed. -/
def dropBytes : Str → Nat → Str
  | s, 0 => s
  | [], _ => []
  | c :: rest, n => dropBytes rest (n - c.utf8Size)

/-- Append a handler-produced fragment to `full_response` and apply the
size check of `process_events` (`full_response.len()` is a byte count). -/
def sseAppend (max : Nat) (t : Str) (acc : Str) : Except Str Str :=
  let acc2 := acc ++ t
  if max < utf8Len acc2 then .error (sizeErrMsg max) else .ok acc2

/-- Per-line body of `SseProcessor::process_events` for a caller-supplied
handler closure `f`. -/
def sseLine (max : Nat) (f : Str → Except Str (Option Str)) (line : Str) (acc : Str) :
    Except Str Str :=
  match dropData line with
  | none => .ok acc
  | some d =>
    if d = doneStr then .ok acc
    else
      match f d with
      | .error e => .error e
      | .ok none => .ok acc
      | .ok (some t) => sseAppend max t acc

/-- The two delimiter characters kept inside `event_data` by
`process_events` (`drain(..event_end + 2)`). -/
def nlnl : Str := ['\n', '\n']

/-- Frame body of `process_events`: its `event_data` includes the trailing
delimiter, and each of its lines goes through the per-line body. -/
def sseFrame (max : Nat) (f : Str → Except Str (Option Str)) (frame : Str) (acc : Str) :
    Except Str Str :=
  runLines (sseLine max f) (rustLines (frame ++ nlnl)) acc

/-- `SseProcessor::process_events` on the state `(buffer, full_response)`. -/
def processEvents (max : Nat) (f : Str → Except Str (Option Str)) (buf : Str) (acc : Str) :
    Except Str (Str × Str) :=
  drainAll (sseFrame max f) buf acc

/-- `push_chunk` followed by `process_events`, iterated over the transport
chunks, starting from `SseProcessor::new()` (with `max` as `max_size`). -/
def sseFeed (max : Nat) (f : Str → Except Str (Option Str)) (chunks : List (List Nat)) :
    Except Str (Str × Str) :=
  feedChunks (sseFrame max f) chunks [] []

/-- `process_events` seen as a method on the processor object: the buffer
field is mutated by `drain(..event_end + 2)` before the frame is handled,
so it is returned alongside the result even when the handler fails. -/
def processEventsBuf (max : Nat) (f : Str → Except Str (Option Str)) :
    Nat → Str → Str → Str × Except Str Str
  | 0, buf, acc => (buf, .ok acc)
  | fuel + 1, buf, acc =>
      match findDelim buf with
      | none => (buf, .ok acc)
      | some i =>
          match sseFrame max f (buf.take i) acc with
          | .error e => (buf.drop (i + 2), .error e)
          | .ok acc2 => processEventsBuf max f fuel (buf.drop (i + 2)) acc2

/-- `process_events` on the full processor state `(buffer, full_response)`,
with the buffer surviving an error return. -/
def processEventsSt (max : Nat) (f : Str → Except Str (Option Str)) (buf : Str) (acc : Str) :
    Str × Except Str Str :=
  processEventsBuf max f buf.length buf acc

theorem processEventsBuf_agrees (max : Nat) (f : Str → Except Str (Option Str)) :
    ∀ (fuel : Nat) (buf acc : Str),
      drainFuel (sseFrame max f) fuel buf acc =
        (match processEventsBuf max f fuel buf acc with
         | (b, .ok a) => .ok (b, a)
         | (_, .error e) => .error e) := by
  intro fuel
  induction fuel with
  | zero => intro buf acc; rfl
  | succ n ih =>
    intro buf acc
    rw [drainFuel, processEventsBuf]
    cases hfd : findDelim buf with
    | none => rfl
    | some i =>
      simp only
      cases hh : sseFrame max f (buf.take i) acc with
      | error e => rfl
      | ok acc2 => exact ih (buf.drop (i + 2)) acc2

/-- `SseProcessor::process_events_with_output`: alongside the result, the
list of writes this call makes to the output sink (one slice of the newly
accumulated text when the batch succeeds and grew the response). -/
def processEventsWithOutput (max : Nat) (f : Str → Except Str (Option Str))
    (buf : Str) (acc : Str) : Except Str (Str × Str) × List Str :=
  match processEvents max f buf acc with
  | .error e => (.error e, [])
  | .ok (buf2, acc2) =>
    (.ok (buf2, acc2),
      if utf8Len acc < utf8Len acc2 then [dropBytes acc2 (utf8Len acc)] else [])

/-- Bytes of an ASCII string, for building concrete transport chunks. -/
def strBytes (s : String) : List Nat := s.data.map Char.toNat

/-- Rust `char::is_whitespace` (the Unicode White_Space property). -/
def rustIsWs (c : Char) : Bool :=
  (0x09 ≤ c.toNat ∧ c.toNat ≤ 0x0D) ∨ c.toNat = 0x20 ∨ c.toNat = 0x85 ∨
  c.toNat = 0xA0 ∨ c.toNat = 0x1680 ∨ (0x2000 ≤ c.toNat ∧ c.toNat ≤ 0x200A) ∨
  c.toNat = 0x2028 ∨ c.toNat = 0x2029 ∨ c.toNat = 0x202F ∨ c.toNat = 0x205F ∨
  c.toNat = 0x3000

/-- Rust `str::trim`. -/
def rustTrim (s : Str) : Str :=
  ((s.dropWhile rustIsWs).reverse.dropWhile rustIsWs).reverse

/-- `haystack.find(needle)`: index of the first occurrence. -/
def findSub (pat : Str) : Str → Option Nat
  | [] => if pat = [] then some 0 else none
  | c :: rest =>
      if pat.isPrefixOf (c :: rest) then some 0
      else (findSub pat rest).map (fun n => n + 1)

/-- `ParsedResponse` of `output.rs`. -/
structure ParsedResponse where
  command : Option Str
  explanation : Option Str

/-- The `"COMMAND:"` marker. -/
def cmdMarker : Str := "COMMAND:".data

/-- The `"EXPLANATION:"` marker. -/
def explMarker : Str := "EXPLANATION:".data

/-- The triple-backtick code fence. -/
def ticks : Str := "```".data

/-- The `COMMAND:` branch of `parse_response`: text after the marker up to
the first newline (else the `EXPLANATION:` marker, else the end), trimmed,
kept only if non-empty. -/
def commandFromMarker (response : Str) : Option Str :=
  match findSub cmdMarker response with
  | none => none
  | some i =>
    let afterp := response.drop (i + 8)
    let cmdEnd :=
      match findSub ['\n'] afterp with
      | some j => j
      | none =>
        match findSub explMarker afterp with
        | some j => j
        | none => afterp.length
    let cmd := rustTrim (afterp.take cmdEnd)
    if cmd = [] then none else some cmd

/-- The fenced-code-block fallback of `parse_response`: after the first
fence, skip up to and including the first newline (language identifier),
take up to the closing fence, trim, keep only if non-empty. -/
def commandFromBlock (response : Str) : Option Str :=
  match findSub ticks response with
  | none => none
  | some i =>
    let ab := response.drop (i + 3)
    let contentStart :=
      match findSub ['\n'] ab with
      | some j => j + 1
      | none => 0
    let content := ab.drop contentStart
    match findSub ticks content with
    | none => none
    | some j =>
      let cmd := rustTrim (content.take j)
      if cmd = [] then none else some cmd

/-- The last-resort fallback of `parse_response`: the first line whose trim
is non-empty, trimmed. -/
def commandFromFirstLine (response : Str) : Option Str :=
  match (rustLines response).find? (fun l => !(rustTrim l).isEmpty) with
  | none => none
  | some l => some (rustTrim l)

/-- The `EXPLANATION:` branch of `parse_response`. -/
def explanationFrom (response : Str) : Option Str :=
  match findSub explMarker response with
  | none => none
  | some i =>
    let exp := rustTrim (response.drop (i + 12))
    if exp = [] then none else some exp

/-- `output.rs::parse_response`: the `COMMAND:` branch, then the fenced
code block fallback, then the first non-empty line. -/
def parse_response (response : Str) : ParsedResponse :=
  let c1 := commandFromMarker response
  let c2 :=
    match c1 with
    | some c => some c
    | none => commandFromBlock response
  let c3 :=
    match c2 with
    | some c => some c
    | none => commandFromFirstLine response
  ⟨c3, explanationFrom response⟩

/-- Observable terminal actions of `StderrStreamer` and its spinner. -/
inductive OutEvent where
  | eraseSpinner : OutEvent
  | enterStream : OutEvent
  | bytes : Str → OutEvent
  | resetLine : OutEvent
deriving DecidableEq

/-- `StderrStreamer` state: `started`, and whether the `Option<Spinner>` is
still held. -/
structure SState where
  started : Bool
  spinner : Bool
deriving DecidableEq

/-- `StderrStreamer::new(Some(spinner))` as built by `main.rs`. -/
def streamerNew : SState := ⟨false, true⟩

/-- `impl Write for StderrStreamer`: on the first write, mark `started`,
stop and erase the spinner if held, switch the terminal to dim mode
(`enterStream`), then write the bytes. -/
def streamerWrite (st : SState) (buf : Str) : SState × List OutEvent :=
  if st.started then (st, [.bytes buf])
  else
    (⟨true, false⟩,
      (if st.spinner then [OutEvent.eraseSpinner] else []) ++ [.enterStream, .bytes buf])

/-- `StderrStreamer::finish`: stop and erase the spinner if still held,
then emit the trailing reset/newline if streaming had started. -/
def streamerFinish (st : SState) : SState × List OutEvent :=
  (⟨st.started, false⟩,
    (if st.spinner then [OutEvent.eraseSpinner] else []) ++
    (if st.started then [OutEvent.resetLine] else []))

/-- A sequence of `write` calls, accumulating the emitted events. -/
def streamerWrites : SState → List Str → SState × List OutEvent
  | st, [] => (st, [])
  | st, w :: rest =>
      match streamerWrite st w with
      | (st2, evs) =>
        match streamerWrites st2 rest with
        | (st3, evs2) => (st3, evs ++ evs2)

/-- One whole session as driven by `main.rs`: the fragment writes during
streaming, then `finish`. -/
def streamerSession (ws : List Str) : SState × List OutEvent :=
  match streamerWrites streamerNew ws with
  | (st, evs) =>
    match streamerFinish st with
    | (st2, evs2) => (st2, evs ++ evs2)

theorem streamerWrites_started (ws : List Str) :
    streamerWrites ⟨true, false⟩ ws = (⟨true, false⟩, ws.map OutEvent.bytes) := by
  induction ws with
  | nil => rfl
  | cons w tl ih => simp [streamerWrites, streamerWrite, ih]

theorem streamerSession_trace (ws : List Str) :
    (streamerSession ws).2 =
      match ws with
      | [] => [OutEvent.eraseSpinner]
      | _ :: _ => OutEvent.eraseSpinner :: OutEvent.enterStream ::
          (ws.map OutEvent.bytes ++ [OutEvent.resetLine]) := by
  cases ws with
  | nil => rfl
  | cons w tl =>
    simp [streamerSession, streamerWrites, streamerWrite, streamerNew,
      streamerWrites_started, streamerFinish]

theorem streamerSession_state (ws : List Str) :
    (streamerSession ws).1 = ⟨!ws.isEmpty, false⟩ := by
  cases ws with
  | nil => rfl
  | cons w tl =>
    simp [streamerSession, streamerWrites, streamerWrite, streamerNew,
      streamerWrites_started, streamerFinish]

theorem dropData_marker (d : Str) : dropData (dataMarker ++ d) = some d := by
  have hpre : dataMarker.isPrefixOf (dataMarker ++ d) = true := by
    rw [List.isPrefixOf_iff_prefix]
    exact List.prefix_append _ _
  simp [dropData, hpre]

theorem utf8Lossy_of_ascii : ∀ (s : Str), (∀ c ∈ s, c.toNat < 128) →
    utf8Lossy (s.map Char.toNat) = s := by
  intro s
  induction s with
  | nil => intro _; rfl
  | cons c tl ih =>
    intro h
    have hc : c.toNat < 128 := h c (by simp)
    have hstep : stepByte none c.toNat = ([Char.ofNat c.toNat], none) := by
      simp only [stepByte, classifyLead]
      rw [if_pos hc]
    simp only [List.map_cons, utf8Lossy, lossyRun, hstep]
    have h2 := ih (fun c hcm => h c (List.mem_cons_of_mem _ hcm))
    simp only [utf8Lossy] at h2
    rw [h2]
    simp [Char.ofNat_toNat]

theorem sseAppend_ok_le {max : Nat} {t acc acc2 : Str}
    (h : sseAppend max t acc = .ok acc2) : utf8Len acc2 ≤ max := by
  simp only [sseAppend] at h
  by_cases hle : max < utf8Len (acc ++ t)
  · rw [if_pos hle] at h
    exact (Except.noConfusion h)
  · rw [if_neg hle] at h
    cases h
    omega

theorem sseLine_ok_le {max : Nat} {f : Str → Except Str (Option Str)} {line acc acc2 : Str}
    (hacc : utf8Len acc ≤ max) (h : sseLine max f line acc = .ok acc2) :
    utf8Len acc2 ≤ max := by
  unfold sseLine at h
  cases hd : dropData line with
  | none =>
    simp only [hd] at h
    cases h
    exact hacc
  | some d =>
    simp only [hd] at h
    by_cases hdone : d = doneStr
    · rw [if_pos hdone] at h
      cases h
      exact hacc
    · rw [if_neg hdone] at h
      cases hf : f d with
      | error e =>
        simp only [hf] at h
        exact (Except.noConfusion h)
      | ok o =>
        simp only [hf] at h
        cases o with
        | none =>
          simp only at h
          cases h
          exact hacc
        | some t =>
          simp only at h
          exact sseAppend_ok_le h

theorem runLines_sse_le {max : Nat} {f : Str → Except Str (Option Str)} :
    ∀ (ls : List Str) (acc acc2 : Str), utf8Len acc ≤ max →
      runLines (sseLine max f) ls acc = .ok acc2 → utf8Len acc2 ≤ max := by
  intro ls
  induction ls with
  | nil =>
    intro acc acc2 hacc h
    rw [runLines] at h
    cases h
    exact hacc
  | cons l tl ih =>
    intro acc acc2 hacc h
    rw [runLines] at h
    cases hs : sseLine max f l acc with
    | error e =>
      simp only [hs] at h
      exact (Except.noConfusion h)
    | ok acc3 =>
      simp only [hs] at h
      exact ih acc3 acc2 (sseLine_ok_le hacc hs) h

theorem drainFuel_sse_le {max : Nat} {f : Str → Except Str (Option Str)} :
    ∀ (fuel : Nat) (buf acc buf2 acc2 : Str), utf8Len acc ≤ max →
      drainFuel (sseFrame max f) fuel buf acc = .ok (buf2, acc2) → utf8Len acc2 ≤ max := by
  intro fuel
  induction fuel with
  | zero =>
    intro buf acc buf2 acc2 hacc h
    rw [drainFuel] at h
    cases h
    exact hacc
  | succ n ih =>
    intro buf acc buf2 acc2 hacc h
    rw [drainFuel] at h
    cases hfd : findDelim buf with
    | none =>
      simp only [hfd] at h
      cases h
      exact hacc
    | some i =>
      simp only [hfd] at h
      cases hh : sseFrame max f (buf.take i) acc with
      | error e =>
        simp only [hh] at h
        exact (Except.noConfusion h)
      | ok acc3 =>
        simp only [hh] at h
        exact ih _ acc3 buf2 acc2 (runLines_sse_le _ acc acc3 hacc hh) h

/-- The handler closure used in concrete scenarios: echo the payload. -/
def echoHandler (d : Str) : Except Str (Option Str) := .ok (some d)

/-- A 64-character fragment. -/
def aTxt : Str := List.replicate 64 'a'

/-- A complete Backend A text-delta frame whose fragment is `aTxt`. -/
def bigFrameStr : Str :=
  "data: \x7b\"type\":\"content_block_delta\",\"index\":0,\"delta\":\x7b\"type\":\"text_delta\",\"text\":\"".data
  ++ aTxt ++ "\"\x7d\x7d\n\n".data

/-- The transport bytes of `bigFrameStr` (pure ASCII). -/
def bigFrameBytes : List Nat := bigFrameStr.map Char.toNat

theorem utf8Lossy_bigFrame : utf8Lossy bigFrameBytes = bigFrameStr :=
  utf8Lossy_of_ascii bigFrameStr (by decide)

theorem utf8Len_append (a b : Str) : utf8Len (a ++ b) = utf8Len a + utf8Len b := by
  simp [utf8Len, List.map_append, List.sum_append]

theorem utf8Len_flatten_replicate :
    ∀ n, utf8Len ((List.replicate n aTxt).flatten) = n * 64 := by
  intro n
  induction n with
  | zero => rfl
  | succ m ih =>
    rw [List.replicate_succ, List.flatten_cons, utf8Len_append, ih]
    have h64 : utf8Len aTxt = 64 := by decide
    rw [h64]
    ring

theorem anthropic_bigFrame_step (st : PState) :
    drainAll anthropicFrame bigFrameStr st =
      .ok ([], ⟨st.acc ++ aTxt, st.ws ++ [aTxt]⟩) := rfl

theorem anthropicFeed_replicate :
    ∀ (n : Nat) (st : PState),
      feedChunks anthropicFrame (List.replicate n bigFrameBytes) [] st =
        .ok ([], ⟨st.acc ++ (List.replicate n aTxt).flatten,
                  st.ws ++ List.replicate n aTxt⟩) := by
  intro n
  induction n with
  | zero =>
    intro st
    simp [feedChunks, List.replicate]
  | succ n ih =>
    intro st
    rw [List.replicate_succ, feedChunks, List.nil_append, utf8Lossy_bigFrame,
      anthropic_bigFrame_step st]
    simpa [List.replicate_succ, List.append_assoc] using
      ih ⟨st.acc ++ aTxt, st.ws ++ [aTxt]⟩

theorem mem_dropWhile_of_mem {p : Char → Bool} :
    ∀ (l : Str) (c : Char), c ∈ l → p c = false → c ∈ l.dropWhile p := by
  intro l
  induction l with
  | nil => intro c hc _; cases hc
  | cons d tl ih =>
    intro c hc hp
    by_cases hd : p d
    · rw [List.dropWhile_cons_of_pos hd]
      rcases List.mem_cons.mp hc with rfl | hm
      · simp [hd] at hp
      · exact ih c hm hp
    · rw [List.dropWhile_cons_of_neg (by simpa using hd)]
      exact hc

theorem rustTrim_ne_nil_of_mem {l : Str} {c : Char} (hc : c ∈ l) (hw : rustIsWs c = false) :
    rustTrim l ≠ [] := by
  intro hnil
  unfold rustTrim at hnil
  rw [List.reverse_eq_nil_iff, List.dropWhile_eq_nil_iff] at hnil
  have h1 : c ∈ (l.dropWhile rustIsWs) := mem_dropWhile_of_mem l c hc hw
  have h2 : c ∈ (l.dropWhile rustIsWs).reverse := List.mem_reverse.mpr h1
  have h3 := hnil c h2
  rw [hw] at h3
  exact Bool.noConfusion h3

theorem splitNl_ne_nil : ∀ (s : Str), splitNl s ≠ [] := by
  intro s
  cases s with
  | nil => simp [splitNl]
  | cons c rest =>
    rw [splitNl]
    by_cases hc : c = '\n'
    · rw [if_pos hc]; simp
    · rw [if_neg hc]
      cases h : splitNl rest <;> simp

theorem mem_splitNl : ∀ (s : Str) (c : Char), c ∈ s → c ≠ '\n' → ∃ l ∈ splitNl s, c ∈ l := by
  intro s
  induction s with
  | nil => intro c hc _; cases hc
  | cons d tl ih =>
    intro c hc hcn
    rw [splitNl]
    by_cases hd : d = '\n'
    · rw [if_pos hd]
      have hct : c ∈ tl := by
        rcases List.mem_cons.mp hc with rfl | hm
        · exact absurd hd hcn
        · exact hm
      obtain ⟨l, hl, hcl⟩ := ih c hct hcn
      exact ⟨l, List.mem_cons_of_mem _ hl, hcl⟩
    · rw [if_neg hd]
      cases hsp : splitNl tl with
      | nil => exact absurd hsp (splitNl_ne_nil tl)
      | cons l0 ls =>
        rcases List.mem_cons.mp hc with rfl | hm
        · exact ⟨c :: l0, by simp, by simp⟩
        · obtain ⟨l, hl, hcl⟩ := ih c hm hcn
          rw [hsp] at hl
          rcases List.mem_cons.mp hl with rfl | hls
          · exact ⟨d :: l, by simp, List.mem_cons_of_mem _ hcl⟩
          · exact ⟨l, List.mem_cons_of_mem _ hls, hcl⟩

theorem splitNl_length_ge_two : ∀ (s : Str), '\n' ∈ s → 2 ≤ (splitNl s).length := by
  intro s
  induction s with
  | nil => intro h; cases h
  | cons c tl ih =>
    intro h
    rw [splitNl]
    by_cases hc : c = '\n'
    · rw [if_pos hc]
      cases hsp : splitNl tl with
      | nil => exact absurd hsp (splitNl_ne_nil tl)
      | cons a as => simp
    · rw [if_neg hc]
      have hmem : '\n' ∈ tl := by
        rcases List.mem_cons.mp h with heq | hm
        · exact absurd heq.symm hc
        · exact hm
      have h2 := ih hmem
      cases hsp : splitNl tl with
      | nil => exact absurd hsp (splitNl_ne_nil tl)
      | cons a as =>
        rw [hsp] at h2
        simpa using h2

theorem splitNl_getLast_of_nl :
    ∀ (s : Str), s.getLast? = some '\n' → (splitNl s).getLast? = some [] := by
  intro s
  induction s with
  | nil => intro h; simp at h
  | cons c tl ih =>
    intro h
    cases tl with
    | nil =>
      simp at h
      subst h
      rfl
    | cons d tl2 =>
      have h2 : (d :: tl2 : Str).getLast? = some '\n' := by
        rw [List.getLast?_cons_cons] at h
        exact h
      have ih2 := ih h2
      rw [splitNl]
      by_cases hc : c = '\n'
      · rw [if_pos hc]
        cases hsp : splitNl (d :: tl2) with
        | nil => exact absurd hsp (splitNl_ne_nil _)
        | cons a as =>
          rw [hsp] at ih2
          rw [List.getLast?_cons_cons]
          exact ih2
      · rw [if_neg hc]
        have hnl : '\n' ∈ (d :: tl2 : Str) := by
          have hx : '\n' ∈ (d :: tl2 : Str).getLast? := Option.mem_def.mpr h2
          rcases List.mem_getLast?_eq_getLast hx with ⟨hne9, heq⟩
          rw [heq]
          exact List.getLast_mem hne9
        have hlen := splitNl_length_ge_two _ hnl
        cases hsp : splitNl (d :: tl2) with
        | nil => exact absurd hsp (splitNl_ne_nil _)
        | cons l0 ls =>
          rw [hsp] at ih2 hlen
          cases ls with
          | nil => simp at hlen
          | cons l1 ls2 =>
            rw [List.getLast?_cons_cons]
            rw [List.getLast?_cons_cons] at ih2
            exact ih2

theorem mem_dropCr {l : Str} {c : Char} (hc : c ∈ l) (hr : c ≠ '\r') : c ∈ dropCr l := by
  unfold dropCr
  by_cases hlast : l.getLast? = some '\r'
  · rw [if_pos hlast]
    have hne : l ≠ [] := by intro h; subst h; cases hc
    have hgl : l.getLast? = some (l.getLast hne) := List.getLast?_eq_getLast_of_ne_nil hne
    have hlr : l.getLast hne = '\r' := by
      rw [hgl] at hlast
      exact Option.some.inj hlast
    have hdecomp : l.dropLast ++ [l.getLast hne] = l := List.dropLast_append_getLast hne
    rw [← hdecomp] at hc
    rcases List.mem_append.mp hc with h1 | h2
    · exact h1
    · rw [List.mem_singleton] at h2
      rw [hlr] at h2
      exact absurd h2 hr
  · rw [if_neg hlast]
    exact hc

theorem mem_rustLines {r : Str} {c : Char} (hc : c ∈ r) (hn : c ≠ '\n') (hr : c ≠ '\r') :
    ∃ l ∈ rustLines r, c ∈ l := by
  have hne : r ≠ [] := by intro h; subst h; cases hc
  unfold rustLines
  rw [if_neg hne]
  obtain ⟨l, hl, hcl⟩ := mem_splitNl r c hc hn
  by_cases hlast : r.getLast? = some '\n'
  · rw [if_pos hlast]
    have hgl := splitNl_getLast_of_nl r hlast
    have hne2 := splitNl_ne_nil r
    have hgl2 : (splitNl r).getLast? = some ((splitNl r).getLast hne2) :=
      List.getLast?_eq_getLast_of_ne_nil hne2
    have hlastnil : (splitNl r).getLast hne2 = [] := by
      rw [hgl2] at hgl
      exact Option.some.inj hgl
    have hdecomp : (splitNl r).dropLast ++ [(splitNl r).getLast hne2] = splitNl r :=
      List.dropLast_append_getLast hne2
    rw [← hdecomp] at hl
    rcases List.mem_append.mp hl with h1 | h2
    · exact ⟨dropCr l, List.mem_map_of_mem dropCr h1, mem_dropCr hcl hr⟩
    · rw [List.mem_singleton] at h2
      rw [hlastnil] at h2
      subst h2
      cases hcl
  · rw [if_neg hlast]
    exact ⟨dropCr l, List.mem_map_of_mem dropCr hl, mem_dropCr hcl hr⟩

theorem findSub_head_mem {p0 : Char} {ptl : Str} :
    ∀ (r : Str) (i : Nat), findSub (p0 :: ptl) r = some i → p0 ∈ r := by
  intro r
  induction r with
  | nil => intro i h; simp [findSub] at h
  | cons c rest ih =>
    intro i h
    rw [findSub] at h
    by_cases hp : (p0 :: ptl).isPrefixOf (c :: rest)
    · rcases List.isPrefixOf_iff_prefix.mp hp with ⟨t, ht⟩
      rw [List.cons_append] at ht
      injection ht with h1 _
      rw [h1]
      exact List.mem_cons_self _ _
    · rw [if_neg (by simpa using hp)] at h
      rw [Option.map_eq_some'] at h
      obtain ⟨j, hj, _⟩ := h
      exact List.mem_cons_of_mem _ (ih j hj)

/-- A Backend A happy-path frame carrying the fragment `ls -la`. -/
def deltaFrame : String :=
  "data: \x7b\"type\":\"content_block_delta\",\"index\":0,\"delta\":\x7b\"type\":\"text_delta\",\"text\":\"ls -la\"\x7d\x7d\n\n"

/-- A Backend A error frame with server message `overloaded`. -/
def errFrame : String :=
  "data: \x7b\"type\":\"error\",\"error\":\x7b\"message\":\"overloaded\"\x7d\x7d\n\n"

/-- The malformed-payload frame of the spec scenario. -/
def badFrame : String := "data: \x7bnot json\x7d\n\n"

/-- C1 counterexample: a stream with a valid delta frame followed by the
spec's malformed frame `data: (not json)` makes the anthropic call return
`Ok("ls -la")` — the malformed frame is silently skipped, the call does not
fail, and the previously accumulated text is not discarded. -/
theorem claim1_counterexample :
    anthropicRun [strBytes (deltaFrame ++ badFrame)] = .ok ("ls -la".data) := rfl

/-- C1 (amended): a `data:` payload that is malformed JSON or structurally
invalid for the backend schema is silently skipped by both backends' line
handlers — no fragment, no error, state unchanged — so accumulated text is
preserved rather than the call failing. -/
theorem claim1_amended (d : Str) (st : PState) :
    ((anthropicFromStr d).isOk = false → anthropicLine (dataMarker ++ d) st = .ok st) ∧
    ((openaiFromStr d).isOk = false → openaiLine (dataMarker ++ d) st = .ok st) := by
  constructor
  · intro h
    simp only [anthropicLine, dropData_marker]
    by_cases hdone : d = doneStr
    · rw [if_pos hdone]
    · rw [if_neg hdone]
      cases hf : anthropicFromStr d with
      | error e => simp only [hf]
      | ok ev =>
        rw [hf] at h
        simp [Except.isOk, Except.toBool] at h
  · intro h
    simp only [openaiLine, dropData_marker]
    by_cases hdone : d = doneStr
    · rw [if_pos hdone]
    · rw [if_neg hdone]
      cases hf : openaiFromStr d with
      | error e => simp only [hf]
      | ok ev =>
        rw [hf] at h
        simp [Except.isOk, Except.toBool] at h

/-- C1 witness: the amended theorem at the concrete malformed payload. -/
theorem claim1_witness :
    anthropicLine (dataMarker ++ "\x7bnot json\x7d".data) ⟨[], []⟩ = .ok ⟨[], []⟩ ∧
    openaiLine (dataMarker ++ "\x7bnot json\x7d".data) ⟨[], []⟩ = .ok ⟨[], []⟩ :=
  ⟨(claim1_amended _ _).1 rfl, (claim1_amended _ _).2 rfl⟩

/-- C2 counterexample: an anthropic streaming session of 16385 frames of
64 bytes each returns `Ok` with an accumulated response of 1048640 bytes,
exceeding the configured 1 MiB maximum — the inline provider loop enforces
no size cap. -/
theorem claim2_counterexample :
    anthropicFeed (List.replicate 16385 bigFrameBytes) =
      .ok ([], ⟨[] ++ (List.replicate 16385 aTxt).flatten,
                [] ++ List.replicate 16385 aTxt⟩) ∧
    MAX_RESPONSE_SIZE < utf8Len ([] ++ (List.replicate 16385 aTxt).flatten) := by
  constructor
  · exact anthropicFeed_replicate 16385 ⟨[], []⟩
  · rw [List.nil_append, utf8Len_flatten_replicate]
    norm_num [MAX_RESPONSE_SIZE]

/-- C2 (amended): the size cap is enforced only by
`SseProcessor::process_events`: a successful batch keeps `full_response`
within `max_size` (if it started within), the append step errors with the
size-limit message exactly when the appended response exceeds `max_size`
and otherwise appends without truncation; the providers' inline
`stream_completion` loops enforce no cap, so an anthropic session can
return more than the default 1 MiB. -/
theorem claim2_amended (max : Nat) (f : Str → Except Str (Option Str)) :
    (∀ (buf acc buf2 acc2 : Str), utf8Len acc ≤ max →
        processEvents max f buf acc = .ok (buf2, acc2) → utf8Len acc2 ≤ max) ∧
    (∀ (t acc : Str), max < utf8Len (acc ++ t) →
        sseAppend max t acc = .error (sizeErrMsg max)) ∧
    (∀ (t acc : Str), utf8Len (acc ++ t) ≤ max → sseAppend max t acc = .ok (acc ++ t)) ∧
    anthropicFeed (List.replicate 16385 bigFrameBytes) =
      .ok ([], ⟨[] ++ (List.replicate 16385 aTxt).flatten,
                [] ++ List.replicate 16385 aTxt⟩) := by
  refine ⟨?_, ?_, ?_, ?_⟩
  · intro buf acc buf2 acc2 hacc h
    exact drainFuel_sse_le _ buf acc buf2 acc2 hacc h
  · intro t acc h
    simp only [sseAppend]
    rw [if_pos h]
  · intro t acc h
    simp only [sseAppend]
    rw [if_neg (by omega)]
  · exact anthropicFeed_replicate 16385 ⟨[], []⟩

/-- C2 witness: the amended theorem's parts at concrete inputs. -/
theorem claim2_witness :
    ((utf8Len ([] : Str) ≤ 10 ∧ utf8Len ("x".data) ≤ 10) ∧
     (10 < utf8Len (([] : Str) ++ "this is too long".data) ∧
       sseAppend 10 ("this is too long".data) [] = .error (sizeErrMsg 10)) ∧
     (utf8Len (([] : Str) ++ "x".data) ≤ 10 ∧
       sseAppend 10 ("x".data) [] = .ok ([] ++ "x".data))) :=
  ⟨⟨by decide,
    (claim2_amended 10 echoHandler).1 ("data: x\n\n".data) [] [] ("x".data) (by decide) rfl⟩,
   ⟨by decide, (claim2_amended 10 echoHandler).2.1 ("this is too long".data) [] (by decide)⟩,
   ⟨by decide, (claim2_amended 10 echoHandler).2.2.1 ("x".data) [] (by decide)⟩⟩

/-- The first chunk of the C3 counterexample: an event whose payload ends
mid-way through the two-byte UTF-8 encoding of `U+00E9`. -/
def utf8Chunk1 : List Nat := strBytes "data: " ++ [0xC3]

/-- The second chunk: the continuation byte, then the frame end. -/
def utf8Chunk2 : List Nat := 0xA9 :: strBytes "!\n\n"

/-- C3 counterexample: the same valid byte stream fed as two chunks split
inside a UTF-8 character yields a different accumulated response than fed
as one chunk, because `from_utf8_lossy` runs per chunk and turns each half
into a replacement character. -/
theorem claim3_counterexample :
    sseFeed MAX_RESPONSE_SIZE echoHandler [utf8Chunk1, utf8Chunk2] =
      .ok ([], [replChar, replChar, '!']) ∧
    sseFeed MAX_RESPONSE_SIZE echoHandler [utf8Chunk1 ++ utf8Chunk2] =
      .ok ([], [Char.ofNat 0xE9, '!']) ∧
    ([replChar, replChar, '!'] : Str) ≠ [Char.ofNat 0xE9, '!'] :=
  ⟨rfl, rfl, by decide⟩

/-- C3 (amended): for streams of ASCII bytes, feeding any chunk splitting
through `push_chunk` + `process_events` gives the same result as feeding
the whole stream as a single chunk, for every handler and size cap. -/
theorem claim3_amended (max : Nat) (f : Str → Except Str (Option Str))
    (chunks : List (List Nat)) (hascii : ∀ b ∈ chunks.flatten, b < 128) :
    sseFeed max f chunks = sseFeed max f [chunks.flatten] := by
  unfold sseFeed
  rw [feedChunks_flatten _ chunks [] [] hascii findDelim_nil]
  rw [feedChunks_flatten _ [chunks.flatten] [] [] (by simpa using hascii) findDelim_nil]
  simp

/-- C3 witness: the amended theorem at a concrete ASCII split. -/
theorem claim3_witness :
    (∀ b ∈ ([strBytes "data: x", strBytes "\n\n"] : List (List Nat)).flatten, b < 128) ∧
    sseFeed MAX_RESPONSE_SIZE echoHandler [strBytes "data: x", strBytes "\n\n"] =
      sseFeed MAX_RESPONSE_SIZE echoHandler
        [([strBytes "data: x", strBytes "\n\n"] : List (List Nat)).flatten] :=
  ⟨by decide, claim3_amended _ _ _ (by decide)⟩

/-- C4: a Backend A `error` event makes the line handler return early with
`API error:` plus the server message verbatim, leaving the state (and thus
the fragments already written to the sink) as it was; concretely, a stream
with a delta frame then an error frame returns the error `API error:
overloaded` — not the partial text — while the sink has already received
`ls -la`. -/
theorem claim4_error_event (d m : Str) (st : PState)
    (hd : anthropicFromStr d = .ok (.errorEv m)) :
    anthropicLine (dataMarker ++ d) st = .error (apiErrMsg m, st) ∧
    anthropicFeed [strBytes (deltaFrame ++ errFrame)] =
      .error ("API error: overloaded".data, ⟨"ls -la".data, ["ls -la".data]⟩) := by
  constructor
  · simp only [anthropicLine, dropData_marker]
    by_cases hdone : d = doneStr
    · subst hdone
      rw [show anthropicFromStr doneStr = Except.error ("expected value".data) from rfl] at hd
      exact (Except.noConfusion hd)
    · rw [if_neg hdone, hd]
  · rfl

/-- C4 witness: the theorem at the concrete error payload. -/
theorem claim4_witness :
    anthropicLine
      (dataMarker ++ "\x7b\"type\":\"error\",\"error\":\x7b\"message\":\"overloaded\"\x7d\x7d".data)
      ⟨[], []⟩ =
      .error (apiErrMsg ("overloaded".data), ⟨[], []⟩) :=
  (claim4_error_event
    ("\x7b\"type\":\"error\",\"error\":\x7b\"message\":\"overloaded\"\x7d\x7d".data)
    ("overloaded".data) ⟨[], []⟩ rfl).1

/-- C5: a payload line exactly `data: [DONE]` produces no fragment, appends
nothing, and never reaches the handler/extractor: the `SseProcessor` line
step returns the state unchanged for EVERY handler closure, and both
providers' line handlers return the state unchanged. -/
theorem claim5_done_sentinel (max : Nat) (f : Str → Except Str (Option Str)) (acc : Str)
    (st : PState) :
    sseLine max f (dataMarker ++ doneStr) acc = .ok acc ∧
    anthropicLine (dataMarker ++ doneStr) st = .ok st ∧
    openaiLine (dataMarker ++ doneStr) st = .ok st := by
  refine ⟨?_, ?_, ?_⟩ <;> simp [sseLine, anthropicLine, openaiLine, dropData_marker]

/-- A handler closure that always fails, as in the repository's
`test_handler_error_propagates`. -/
def failHandler (_ : Str) : Except Str (Option Str) := .error ("parse error".data)

/-- C6 counterexample: an invocation of `process_events` whose handler
fails on the first frame drains that frame but returns with the second,
complete frame still in the buffer — a further delimiter is extractable
without pushing more bytes. -/
theorem claim6_counterexample :
    processEventsSt MAX_RESPONSE_SIZE failHandler ("data: a\n\ndata: b\n\n".data) [] =
      ("data: b\n\n".data, .error ("parse error".data)) ∧
    findDelim ("data: b\n\n".data) = some 7 :=
  ⟨rfl, rfl⟩

theorem processEventsBuf_ok_no_delim (max : Nat) (f : Str → Except Str (Option Str)) :
    ∀ (fuel : Nat) (buf acc : Str) (acc2 : Str), buf.length ≤ fuel →
      (processEventsBuf max f fuel buf acc).2 = .ok acc2 →
      findDelim (processEventsBuf max f fuel buf acc).1 = none := by
  intro fuel
  induction fuel with
  | zero =>
    intro buf acc acc2 hl _
    have hb : buf = [] := List.eq_nil_of_length_eq_zero (Nat.le_zero.mp hl)
    subst hb
    exact findDelim_nil
  | succ n ih =>
    intro buf acc acc2 hl he
    rw [processEventsBuf] at he ⊢
    cases hfd : findDelim buf with
    | none =>
      simp only [hfd]
    | some i =>
      simp only [hfd] at he ⊢
      have hb := findDelim_bound buf i hfd
      cases hh : sseFrame max f (buf.take i) acc with
      | error e =>
        simp only [hh] at he
        exact (Except.noConfusion he)
      | ok acc3 =>
        simp only [hh] at he ⊢
        exact ih (buf.drop (i + 2)) acc3 acc2 (by simp; omega) he

/-- C6 (amended): after every invocation of `process_events` that returns
`Ok`, the buffer holds no complete frame; an invocation that returns an
error can leave complete frames behind, since the failing frame is drained
before the handler error propagates but later frames are not. -/
theorem claim6_amended (max : Nat) (f : Str → Except Str (Option Str))
    (buf acc acc2 : Str)
    (he : (processEventsSt max f buf acc).2 = .ok acc2) :
    findDelim (processEventsSt max f buf acc).1 = none :=
  processEventsBuf_ok_no_delim max f buf.length buf acc acc2 le_rfl he

/-- C6 witness: the amended theorem at a concrete drain that leaves `ab`
in the buffer. -/
theorem claim6_witness :
    findDelim (processEventsSt MAX_RESPONSE_SIZE echoHandler ("data: x\n\nab".data) []).1 =
      none :=
  claim6_amended MAX_RESPONSE_SIZE echoHandler ("data: x\n\nab".data) [] ("x".data) rfl

/-- First chunk of the C7 scenario. -/
def oChunk1 : List Nat := strBytes "data: \x7b\"choices\":"

/-- Second chunk of the C7 scenario. -/
def oChunk2 : List Nat := strBytes "[\x7b\"delta\":\x7b\"content\":\"pwd\"\x7d\x7d]\x7d\n\n"

/-- The Backend B extraction logic as a `process_events` handler closure:
the first choice's `delta.content`; a payload that does not parse yields no
fragment, matching the `if let Ok` skip of the inline loop. -/
def openaiExtract (d : Str) : Except Str (Option Str) :=
  match openaiFromStr d with
  | .error _ => .ok none
  | .ok [] => .ok none
  | .ok (ch :: _) => .ok ch.content

/-- C7: pushing `data: (open choices)` and processing yields zero fragments
with the incomplete frame left untouched in the buffer; pushing the rest
and processing yields exactly one fragment `pwd` — through
`process_events` with the Backend B extractor, and likewise through the
openai inline loop (whose write trace shows exactly one fragment). -/
theorem claim7_split_scenario :
    processEvents MAX_RESPONSE_SIZE openaiExtract (utf8Lossy oChunk1) [] =
      .ok ("data: \x7b\"choices\":".data, []) ∧
    processEvents MAX_RESPONSE_SIZE openaiExtract
      ("data: \x7b\"choices\":".data ++ utf8Lossy oChunk2) [] = .ok ([], "pwd".data) ∧
    openaiFeed [oChunk1, oChunk2] = .ok ([], ⟨"pwd".data, ["pwd".data]⟩) ∧
    drainAll openaiFrame (utf8Lossy oChunk1) ⟨[], []⟩ =
      .ok ("data: \x7b\"choices\":".data, ⟨[], []⟩) :=
  ⟨rfl, rfl, rfl, rfl⟩

/-- C8: over any session of writes then `finish`: with zero writes the
spinner is stopped and erased exactly once and the sink never enters the
started (Streaming) state; with at least one write the spinner erase and
the Waiting-to-Streaming transition each happen exactly once, before any
bytes are written (that is, on the first write). -/
theorem claim8_indicator_lifecycle (ws : List Str) :
    (ws = [] →
      ((streamerSession ws).2.count OutEvent.eraseSpinner = 1 ∧
       (streamerSession ws).2.count OutEvent.enterStream = 0 ∧
       (streamerSession ws).1.started = false)) ∧
    (ws ≠ [] →
      ((streamerSession ws).2.count OutEvent.eraseSpinner = 1 ∧
       (streamerSession ws).2.count OutEvent.enterStream = 1 ∧
       (streamerSession ws).2.take 2 = [OutEvent.eraseSpinner, OutEvent.enterStream])) := by
  constructor
  · intro h
    subst h
    refine ⟨rfl, rfl, rfl⟩
  · intro h
    rw [streamerSession_trace]
    cases ws with
    | nil => exact absurd rfl h
    | cons w tl =>
      have h1 : (tl.map OutEvent.bytes).count OutEvent.eraseSpinner = 0 := by
        rw [List.count_eq_zero]
        intro hmem
        rcases List.mem_map.mp hmem with ⟨x, _, hx⟩
        exact OutEvent.noConfusion hx
      have h2 : (tl.map OutEvent.bytes).count OutEvent.enterStream = 0 := by
        rw [List.count_eq_zero]
        intro hmem
        rcases List.mem_map.mp hmem with ⟨x, _, hx⟩
        exact OutEvent.noConfusion hx
      refine ⟨?_, ?_, rfl⟩
      · simp [List.count_cons, List.count_append, h1]
      · simp [List.count_cons, List.count_append, h2]

/-- C8 witness: the theorem at the empty session and at a one-write
session. -/
theorem claim8_witness :
    (([] : List Str) = [] ∧
      ((streamerSession []).2.count OutEvent.eraseSpinner = 1 ∧
       (streamerSession []).2.count OutEvent.enterStream = 0 ∧
       (streamerSession []).1.started = false)) ∧
    ((["x".data] : List Str) ≠ [] ∧
      ((streamerSession ["x".data]).2.count OutEvent.eraseSpinner = 1 ∧
       (streamerSession ["x".data]).2.count OutEvent.enterStream = 1 ∧
       (streamerSession ["x".data]).2.take 2 =
         [OutEvent.eraseSpinner, OutEvent.enterStream])) :=
  ⟨⟨rfl, (claim8_indicator_lifecycle []).1 rfl⟩,
   ⟨by simp, (claim8_indicator_lifecycle ["x".data]).2 (by simp)⟩⟩

/-- C9: if `process_events` fails inside `process_events_with_output`, that
call writes nothing to the output writer; when the batch succeeds, exactly
the text appended beyond the call's starting length is written (nothing
when no text was appended). -/
theorem claim9_no_output_on_error (max : Nat) (f : Str → Except Str (Option Str))
    (buf acc : Str) :
    (∀ e, (processEventsWithOutput max f buf acc).1 = .error e →
      (processEventsWithOutput max f buf acc).2 = []) ∧
    (∀ buf2 acc2, (processEventsWithOutput max f buf acc).1 = .ok (buf2, acc2) →
      (processEventsWithOutput max f buf acc).2 =
        if utf8Len acc < utf8Len acc2 then [dropBytes acc2 (utf8Len acc)] else []) := by
  constructor
  · intro e he
    simp only [processEventsWithOutput] at he ⊢
    cases hp : processEvents max f buf acc with
    | error e2 => simp only [hp]
    | ok p =>
      obtain ⟨b2, a2⟩ := p
      simp only [hp] at he
      exact (Except.noConfusion he)
  · intro buf2 acc2 h
    simp only [processEventsWithOutput] at h ⊢
    cases hp : processEvents max f buf acc with
    | error e2 =>
      simp only [hp] at h
      exact (Except.noConfusion h)
    | ok p =>
      obtain ⟨b2, a2⟩ := p
      simp only [hp] at h ⊢
      cases h
      rfl

/-- C9 witness: the theorem at a failing batch and at a succeeding batch. -/
theorem claim9_witness :
    ((processEventsWithOutput MAX_RESPONSE_SIZE failHandler ("data: test\n\n".data) []).1 =
       .error ("parse error".data) ∧
     (processEventsWithOutput MAX_RESPONSE_SIZE failHandler ("data: test\n\n".data) []).2 =
       []) ∧
    ((processEventsWithOutput MAX_RESPONSE_SIZE echoHandler ("data: x\n\n".data) []).1 =
       .ok ([], "x".data) ∧
     (processEventsWithOutput MAX_RESPONSE_SIZE echoHandler ("data: x\n\n".data) []).2 =
       (if utf8Len ([] : Str) < utf8Len ("x".data)
        then [dropBytes ("x".data) (utf8Len ([] : Str))] else [])) :=
  ⟨⟨rfl, (claim9_no_output_on_error MAX_RESPONSE_SIZE failHandler ("data: test\n\n".data) []).1
      ("parse error".data) rfl⟩,
   ⟨rfl, (claim9_no_output_on_error MAX_RESPONSE_SIZE echoHandler ("data: x\n\n".data) []).2
      [] ("x".data) rfl⟩⟩

theorem commandFromBlock_none_of_no_line {r : Str}
    (hno : (rustLines r).find? (fun l => !(rustTrim l).isEmpty) = none) :
    commandFromBlock r = none := by
  unfold commandFromBlock
  cases hfs : findSub ticks r with
  | none => rfl
  | some i =>
    exfalso
    have hbt : Char.ofNat 96 ∈ r :=
      @findSub_head_mem (Char.ofNat 96) [Char.ofNat 96, Char.ofNat 96] r i hfs
    obtain ⟨l, hl, hcl⟩ := mem_rustLines hbt (by decide) (by decide)
    have hfind := List.find?_eq_none.mp hno l hl
    have htrim : rustTrim l = [] := by
      simpa using hfind
    exact rustTrim_ne_nil_of_mem hcl (by decide) htrim

/-- C10: for a response without `COMMAND:`, `parse_response` falls back to
the fenced-code-block command when that yields something non-empty and
otherwise to the trimmed first non-empty line, and it returns no command
exactly when the response has no non-empty line at all. -/
theorem claim10_fallbacks (r : Str) (hnc : findSub cmdMarker r = none) :
    (parse_response r).command =
      (match commandFromBlock r with
       | some c => some c
       | none => commandFromFirstLine r) ∧
    ((parse_response r).command = none ↔
      (rustLines r).find? (fun l => !(rustTrim l).isEmpty) = none) := by
  have hm : commandFromMarker r = none := by
    unfold commandFromMarker
    rw [hnc]
  have hcmd : (parse_response r).command =
      (match commandFromBlock r with
       | some c => some c
       | none => commandFromFirstLine r) := by
    simp only [parse_response, hm]
  refine ⟨hcmd, ?_⟩
  rw [hcmd]
  constructor
  · intro h
    cases hb : commandFromBlock r with
    | some c =>
      simp only [hb] at h
      exact Option.noConfusion h
    | none =>
      simp only [hb] at h
      unfold commandFromFirstLine at h
      cases hf : (rustLines r).find? (fun l => !(rustTrim l).isEmpty) with
      | none => rfl
      | some l =>
        simp only [hf] at h
        exact Option.noConfusion h
  · intro h
    have hb : commandFromBlock r = none := commandFromBlock_none_of_no_line h
    simp only [hb]
    unfold commandFromFirstLine
    rw [h]

/-- C10 witness: the theorem at the concrete response `git status` plus an
explanation line (no `COMMAND:` marker). -/
theorem claim10_witness :
    ((parse_response ("git status\nThis shows the status".data)).command =
      (match commandFromBlock ("git status\nThis shows the status".data) with
       | some c => some c
       | none => commandFromFirstLine ("git status\nThis shows the status".data)) ∧
     ((parse_response ("git status\nThis shows the status".data)).command = none ↔
      (rustLines ("git status\nThis shows the status".data)).find?
        (fun l => !(rustTrim l).isEmpty) = none)) :=
  claim10_fallbacks ("git status\nThis shows the status".data) rfl
